import Mathlib

/-
Shallow embedding of the WaitTime-Service core (src/queueModel.py and the
change gate of src/consumer.py).

Conventions of the embedding:
* Python floats are modelled exactly: rates and thresholds as ℚ, the
  confidence-interval arithmetic (which uses math.sqrt) as ℝ.
* `float('inf')` is modelled as ⊤ in `WithTop ℝ`.
* A Python `raise ValueError` is modelled as `Except.error` carrying the
  message string; a normal return is `Except.ok`.
* `sample_count` is a Python int, modelled as ℤ.
-/

noncomputable section

/-- Result record returned by `QueueModel.calculate_wait_time`
(queueModel.py, class `WaitTimeResult`).  `wait_minutes` and
`confidence_upper` can be `float('inf')`, hence `WithTop ℝ`. -/
structure WaitTimeResult where
  wait_minutes : WithTop ℝ
  confidence_lower : ℝ
  confidence_upper : WithTop ℝ
  utilization : ℚ
  status : String

/-- The record built by the `rho >= 0.95` overload branches of
`_calculate_mm1` (lines 77-84) and `_calculate_mmk` (lines 130-137). -/
def overloadedResult (rho : ℚ) : WaitTimeResult :=
  { wait_minutes := ⊤
    confidence_lower := 15
    confidence_upper := ⊤
    utilization := rho
    status := "overloaded" }

/-- The record returned by `calculate_wait_time` when `arrival_rate ≤ 0`
(queueModel.py lines 48-55). -/
def zeroArrivalResult : WaitTimeResult :=
  { wait_minutes := ((0 : ℝ) : WithTop ℝ)
    confidence_lower := 0
    confidence_upper := ((0 : ℝ) : WithTop ℝ)
    utilization := 0
    status := "low" }

/-- Status classification on utilization, shared verbatim by
`_calculate_mm1` (lines 101-107) and `_calculate_mmk` (lines 167-173). -/
def statusOf (rho : ℚ) : String :=
  if rho < 1/2 then "low" else if rho < 3/4 then "medium" else "high"

/-- `margin = 1.96 * (W / math.sqrt(max(sample_count, 1)))`
(queueModel.py lines 95-96 and 161-162). -/
def ciMargin (W : ℚ) (n : ℤ) : ℝ :=
  1.96 * ((W : ℝ) / Real.sqrt ((max n 1 : ℤ) : ℝ))

/-- `ci_lower = max(0.0, W - margin)` (lines 98 and 164). -/
def ciLower (W : ℚ) (n : ℤ) : ℝ :=
  max 0 ((W : ℝ) - ciMargin W n)

/-- `ci_upper = W + margin` (lines 99 and 165). -/
def ciUpper (W : ℚ) (n : ℤ) : ℝ :=
  (W : ℝ) + ciMargin W n

/-- The non-overloaded result record: both `_calculate_mm1`
(lines 92-115) and `_calculate_mmk` (lines 160-181) build it with
literally the same code from their `W` and `rho`. -/
def finiteResult (W rho : ℚ) (n : ℤ) : WaitTimeResult :=
  { wait_minutes := (((W : ℚ) : ℝ) : WithTop ℝ)
    confidence_lower := ciLower W n
    confidence_upper := ((ciUpper W n : ℝ) : WithTop ℝ)
    utilization := rho
    status := statusOf rho }

/-- `rho = arrival_rate / service_rate` (line 74). -/
def mm1Rho (lam mu : ℚ) : ℚ := lam / mu

/-- `Wq = rho / (service_rate * (1 - rho))` (line 87). -/
def mm1Wq (lam mu : ℚ) : ℚ :=
  mm1Rho lam mu / (mu * (1 - mm1Rho lam mu))

/-- `W = Wq + (1 / service_rate)` (line 90). -/
def mm1W (lam mu : ℚ) : ℚ := mm1Wq lam mu + 1 / mu

/-- `QueueModel._calculate_mm1` (queueModel.py lines 65-115). -/
def calculate_mm1 (lam mu : ℚ) (n : ℤ) : WaitTimeResult :=
  if 95/100 ≤ mm1Rho lam mu then overloadedResult (mm1Rho lam mu)
  else finiteResult (mm1W lam mu) (mm1Rho lam mu) n

/-- `rho = arrival_rate / (k * service_rate)` (line 128). -/
def mmkRho (k : ℕ) (lam mu : ℚ) : ℚ := lam / (k * mu)

/-- `a = arrival_rate / service_rate` — total offered traffic (line 141). -/
def trafficA (lam mu : ℚ) : ℚ := lam / mu

/-- `sum_term = sum((a ** n) / factorial(n) for n in range(k))` (line 147). -/
def sumTerm (k : ℕ) (a : ℚ) : ℚ :=
  ∑ i in Finset.range k, a ^ i / (Nat.factorial i : ℚ)

/-- `last_term = (a ** k) / (factorial(k) * (1 - rho))` (line 148). -/
def lastTerm (k : ℕ) (a rho : ℚ) : ℚ :=
  a ^ k / ((Nat.factorial k : ℚ) * (1 - rho))

/-- `P0 = 1 / (sum_term + last_term)` (line 149). -/
def erlangP0 (k : ℕ) (a rho : ℚ) : ℚ :=
  1 / (sumTerm k a + lastTerm k a rho)

/-- `C = ((a ** k) / factorial(k)) * (1 / (1 - rho)) * P0` (line 152). -/
def erlangC (k : ℕ) (a rho : ℚ) : ℚ :=
  (a ^ k / (Nat.factorial k : ℚ)) * (1 / (1 - rho)) * erlangP0 k a rho

/-- `Wq = C / (k * service_rate - arrival_rate)` (line 155). -/
def mmkWq (k : ℕ) (lam mu : ℚ) : ℚ :=
  erlangC k (trafficA lam mu) (mmkRho k lam mu) / ((k : ℚ) * mu - lam)

/-- `W = Wq + (1 / service_rate)` (line 158). -/
def mmkW (k : ℕ) (lam mu : ℚ) : ℚ := mmkWq k lam mu + 1 / mu

/-- `QueueModel._calculate_mmk` (queueModel.py lines 117-181). -/
def calculate_mmk (k : ℕ) (lam mu : ℚ) (n : ℤ) : WaitTimeResult :=
  if 95/100 ≤ mmkRho k lam mu then overloadedResult (mmkRho k lam mu)
  else finiteResult (mmkW k lam mu) (mmkRho k lam mu) n

/-- `QueueModel.calculate_wait_time` (queueModel.py lines 30-63), for a
model constructed with `num_servers = k`.  The `arrival_rate <= 0` check
comes first, then the `ValueError`, then the dispatch on
`num_servers == 1`. -/
def calculate_wait_time (k : ℕ) (lam mu : ℚ) (n : ℤ) :
    Except String WaitTimeResult :=
  if lam ≤ 0 then Except.ok zeroArrivalResult
  else if mu ≤ 0 then Except.error "Service rate must be positive"
  else if k = 1 then Except.ok (calculate_mm1 lam mu n)
  else Except.ok (calculate_mmk k lam mu n)

/-- `ArrivalRateSmoother` (queueModel.py lines 192-227): the field
`current_rate` is `None` before the first update. -/
structure ArrivalRateSmoother where
  alpha : ℚ
  current_rate : Option ℚ

/-- `ArrivalRateSmoother.update` (lines 205-223): returns the value the
Python method returns together with the mutated smoother state. -/
def ArrivalRateSmoother.update (s : ArrivalRateSmoother) (new_rate : ℚ) :
    ℚ × ArrivalRateSmoother :=
  match s.current_rate with
  | none => (new_rate, { s with current_rate := some new_rate })
  | some r =>
      let v := s.alpha * new_rate + (1 - s.alpha) * r
      (v, { s with current_rate := some v })

/-- `MQTTEventConsumer._is_significant_change` (consumer.py lines 346-360):
`None` previous wait always publishes; previous wait `0` publishes iff the
new wait exceeds `0.5`; otherwise the gate compares
`abs((new_wait - old_wait) / old_wait * 100)` against the threshold. -/
def is_significant_change (old_wait : Option ℚ) (new_wait : ℚ)
    (threshold_percent : ℚ) : Bool :=
  match old_wait with
  | none => true
  | some old =>
      if old = 0 then decide (1/2 < new_wait)
      else decide (threshold_percent ≤ |(new_wait - old) / old * 100|)

/-- The gate condition exactly as claim C7 words it: in the percentage
clause the absolute value is applied to the numerator only,
`|new_wait - previous_wait| / previous_wait * 100 ≥ threshold`.  Stated
as a definition so the claim can be compared against the source gate. -/
def is_significant_change_claimed (old_wait : Option ℚ) (new_wait : ℚ)
    (threshold_percent : ℚ) : Bool :=
  match old_wait with
  | none => true
  | some old =>
      if old = 0 then decide (1/2 < new_wait)
      else decide (threshold_percent ≤ |new_wait - old| / old * 100)

/-- Width of the confidence interval of a result,
`confidence_upper - confidence_lower`, computed in `WithTop ℝ` as
`confidence_upper + (- confidence_lower)` so that an infinite upper bound
gives an infinite width. -/
def ciWidth (r : WaitTimeResult) : WithTop ℝ :=
  r.confidence_upper + ((-r.confidence_lower : ℝ) : WithTop ℝ)

/-! ### Basic facts about the embedded definitions -/

lemma mmkRho_one (lam mu : ℚ) : mmkRho 1 lam mu = mm1Rho lam mu := by
  simp [mmkRho, mm1Rho]

lemma mmkRho_eq_div (k : ℕ) (lam mu : ℚ) :
    mmkRho k lam mu = trafficA lam mu / (k : ℚ) := by
  rw [mmkRho, trafficA, div_div, mul_comm]

lemma one_le_sumTerm (k : ℕ) (a : ℚ) (hk : 1 ≤ k) (ha : 0 ≤ a) :
    1 ≤ sumTerm k a := by
  obtain ⟨m, rfl⟩ : ∃ m, k = m + 1 := ⟨k - 1, by omega⟩
  rw [sumTerm, Finset.sum_range_succ']
  have h0 : a ^ 0 / (Nat.factorial 0 : ℚ) = 1 := by
    simp [Nat.factorial]
  rw [h0]
  have hsum : 0 ≤ ∑ i in Finset.range m, a ^ (i + 1) / (Nat.factorial (i + 1) : ℚ) := by
    apply Finset.sum_nonneg
    intro i _
    have h1 : (0:ℚ) ≤ a ^ (i + 1) := pow_nonneg ha _
    have h2 : (0:ℚ) < (Nat.factorial (i + 1) : ℚ) := by
      exact_mod_cast Nat.factorial_pos _
    exact div_nonneg h1 h2.le
  linarith

lemma sumTerm_succ (k : ℕ) (a : ℚ) :
    sumTerm (k + 1) a = sumTerm k a + a ^ k / (Nat.factorial k : ℚ) :=
  Finset.sum_range_succ _ _

lemma lastTerm_pos (k : ℕ) (a rho : ℚ) (ha : 0 < a) (hrho : rho < 1) :
    0 < lastTerm k a rho := by
  have h1 : (0:ℚ) < (Nat.factorial k : ℚ) := by exact_mod_cast Nat.factorial_pos _
  exact div_pos (pow_pos ha _) (mul_pos h1 (by linarith))

lemma p0_denom_pos (k : ℕ) (a rho : ℚ) (hk : 1 ≤ k) (ha : 0 < a) (hrho : rho < 1) :
    0 < sumTerm k a + lastTerm k a rho := by
  have h1 := one_le_sumTerm k a hk ha.le
  have h2 := lastTerm_pos k a rho ha hrho
  linarith

lemma trafficA_pos (lam mu : ℚ) (hlam : 0 < lam) (hmu : 0 < mu) :
    0 < trafficA lam mu := div_pos hlam hmu

/-- `rho < 0.95` bounds the offered traffic `a = λ/μ` strictly below the
server count. -/
lemma trafficA_lt_of_rho (k : ℕ) (lam mu : ℚ) (hk : 1 ≤ k) (hmu : 0 < mu)
    (hrho : mmkRho k lam mu < 95/100) : trafficA lam mu < (k : ℚ) := by
  have hk0 : (0:ℚ) < (k : ℚ) := by exact_mod_cast hk
  have hkm : (0:ℚ) < (k : ℚ) * mu := mul_pos hk0 hmu
  have h1 : lam < 95/100 * ((k : ℚ) * mu) := (div_lt_iff hkm).mp hrho
  rw [trafficA, div_lt_iff hmu]
  nlinarith

/-- On the non-overloaded branch, `k·μ - λ > 0` — the Wq divisor is
positive (claim C10's second division). -/
lemma mmk_divisor_pos (k : ℕ) (lam mu : ℚ) (hk : 1 ≤ k) (hlam : 0 < lam)
    (hmu : 0 < mu) (hrho : mmkRho k lam mu < 95/100) :
    0 < (k : ℚ) * mu - lam := by
  have ha := trafficA_lt_of_rho k lam mu hk hmu hrho
  rw [trafficA, div_lt_iff hmu] at ha
  nlinarith

lemma mmkRho_lt_one (k : ℕ) (lam mu : ℚ) (hk : 1 ≤ k) (hmu : 0 < mu)
    (hrho : mmkRho k lam mu < 95/100) : mmkRho k lam mu < 1 := by linarith

/-- The Erlang-C probability `C` is nonnegative on the non-overloaded
branch. -/
lemma erlangC_nonneg (k : ℕ) (lam mu : ℚ) (hk : 1 ≤ k) (hlam : 0 < lam)
    (hmu : 0 < mu) (hrho : mmkRho k lam mu < 95/100) :
    0 ≤ erlangC k (trafficA lam mu) (mmkRho k lam mu) := by
  have ha := trafficA_pos lam mu hlam hmu
  have hrho1 := mmkRho_lt_one k lam mu hk hmu hrho
  have hfac : (0:ℚ) < (Nat.factorial k : ℚ) := by exact_mod_cast Nat.factorial_pos _
  have hp0 : 0 ≤ erlangP0 k (trafficA lam mu) (mmkRho k lam mu) := by
    rw [erlangP0]
    exact le_of_lt (div_pos one_pos (p0_denom_pos k _ _ hk ha hrho1))
  apply mul_nonneg (mul_nonneg _ _) hp0
  · exact div_nonneg (pow_nonneg ha.le _) hfac.le
  · exact le_of_lt (div_pos one_pos (by linarith))

lemma mmkWq_nonneg (k : ℕ) (lam mu : ℚ) (hk : 1 ≤ k) (hlam : 0 < lam)
    (hmu : 0 < mu) (hrho : mmkRho k lam mu < 95/100) :
    0 ≤ mmkWq k lam mu := by
  rw [mmkWq]
  exact div_nonneg (erlangC_nonneg k lam mu hk hlam hmu hrho)
    (mmk_divisor_pos k lam mu hk hlam hmu hrho).le

lemma mmkW_pos (k : ℕ) (lam mu : ℚ) (hk : 1 ≤ k) (hlam : 0 < lam)
    (hmu : 0 < mu) (hrho : mmkRho k lam mu < 95/100) :
    0 < mmkW k lam mu := by
  have h1 := mmkWq_nonneg k lam mu hk hlam hmu hrho
  have h2 : (0:ℚ) < 1 / mu := by positivity
  rw [mmkW]; linarith

/-! ### The k = 1 Erlang-C path collapses to the M/M/1 path -/

lemma erlangC_one (a : ℚ) (ha1 : a ≠ 1) : erlangC 1 a a = a := by
  have h : (1:ℚ) - a ≠ 0 := sub_ne_zero.mpr (Ne.symm ha1)
  rw [erlangC, erlangP0, lastTerm, sumTerm]
  simp only [Finset.sum_range_one, pow_zero, pow_one, Nat.factorial_one,
    Nat.factorial_zero, Nat.cast_one]
  have e1 : (1:ℚ) / 1 + a / (1 * (1 - a)) = 1 / (1 - a) := by
    field_simp
  rw [e1]
  field_simp

lemma mmkWq_one_eq (lam mu : ℚ) (hmu : 0 < mu) (hlt : mm1Rho lam mu < 1) :
    mmkWq 1 lam mu = mm1Wq lam mu := by
  have ha : trafficA lam mu = mm1Rho lam mu := rfl
  have hne : trafficA lam mu ≠ 1 := by rw [ha]; exact ne_of_lt hlt
  have hrho1 : mmkRho 1 lam mu = trafficA lam mu := by
    rw [mmkRho_one]; rfl
  have hmu0 : mu ≠ 0 := ne_of_gt hmu
  rw [mmkWq, hrho1, erlangC_one _ hne, mm1Wq]
  have hd : mu * (1 - mm1Rho lam mu) = mu - lam := by
    rw [mm1Rho]; field_simp
  rw [hd, ha]
  norm_num

lemma calculate_mm1_eq_mmk_one (lam mu : ℚ) (hmu : 0 < mu) (n : ℤ) :
    calculate_mm1 lam mu n = calculate_mmk 1 lam mu n := by
  rw [calculate_mm1, calculate_mmk, mmkRho_one]
  by_cases hov : 95/100 ≤ mm1Rho lam mu
  · rw [if_pos hov, if_pos hov]
  · rw [if_neg hov, if_neg hov]
    have hlt : mm1Rho lam mu < 1 := by push_neg at hov; linarith
    have hW : mmkW 1 lam mu = mm1W lam mu := by
      rw [mmkW, mm1W, mmkWq_one_eq lam mu hmu hlt]
    rw [hW]

/-- For `λ > 0`, `μ > 0`, `k ≥ 1` the top-level dispatcher returns the
(`k = 1`-compatible) Erlang-C result. -/
lemma calculate_wait_time_pos (k : ℕ) (lam mu : ℚ) (n : ℤ) (hlam : 0 < lam)
    (hmu : 0 < mu) (hk : 1 ≤ k) :
    calculate_wait_time k lam mu n = Except.ok (calculate_mmk k lam mu n) := by
  rw [calculate_wait_time, if_neg (not_le.mpr hlam), if_neg (not_le.mpr hmu)]
  by_cases hk1 : k = 1
  · subst hk1
    rw [if_pos rfl, calculate_mm1_eq_mmk_one lam mu hmu n]
  · rw [if_neg hk1]

/-! ### Closed form of the Erlang-C queue wait and monotonicity in k -/

lemma mmkWq_closed (k : ℕ) (lam mu : ℚ) (hk : 1 ≤ k) (hlam : 0 < lam)
    (hmu : 0 < mu) (hak : trafficA lam mu < (k : ℚ)) :
    mmkWq k lam mu =
      trafficA lam mu ^ k / (Nat.factorial k : ℚ) * (k : ℚ) /
        (mu * ((k : ℚ) - trafficA lam mu) *
          (sumTerm k (trafficA lam mu) * ((k : ℚ) - trafficA lam mu) +
            trafficA lam mu ^ k / (Nat.factorial k : ℚ) * (k : ℚ))) := by
  have hmu0 : mu ≠ 0 := ne_of_gt hmu
  have hk0 : (0:ℚ) < (k : ℚ) := by exact_mod_cast hk
  have hkne : ((k : ℚ)) ≠ 0 := ne_of_gt hk0
  have ha : 0 < trafficA lam mu := trafficA_pos lam mu hlam hmu
  set a := trafficA lam mu with haDef
  set s := sumTerm k a with hsDef
  set g := a ^ k / (Nat.factorial k : ℚ) with hgDef
  have hksub : (0:ℚ) < (k : ℚ) - a := sub_pos.mpr hak
  have hksubne : ((k : ℚ) - a) ≠ 0 := ne_of_gt hksub
  have hfac : (0:ℚ) < (Nat.factorial k : ℚ) := by exact_mod_cast Nat.factorial_pos _
  have hfacne : (Nat.factorial k : ℚ) ≠ 0 := ne_of_gt hfac
  have hg : 0 < g := by rw [hgDef]; positivity
  have hs : 0 < s := lt_of_lt_of_le one_pos (one_le_sumTerm k a hk ha.le)
  have hrho : mmkRho k lam mu = a / (k : ℚ) := mmkRho_eq_div k lam mu
  have hone : (1:ℚ) - a / (k : ℚ) = ((k : ℚ) - a) / (k : ℚ) := by
    field_simp
  have hlast : lastTerm k a (a / (k : ℚ)) = g * (k : ℚ) / ((k : ℚ) - a) := by
    rw [lastTerm, hone, hgDef]
    field_simp
  have hdenom : (0:ℚ) < s * ((k : ℚ) - a) + g * (k : ℚ) := by
    have h1 : 0 < s * ((k : ℚ) - a) := mul_pos hs hksub
    have h2 : 0 < g * (k : ℚ) := mul_pos hg hk0
    linarith
  have hdenomne : (s * ((k : ℚ) - a) + g * (k : ℚ)) ≠ 0 := ne_of_gt hdenom
  have hsplit : s + g * (k : ℚ) / ((k : ℚ) - a) =
      (s * ((k : ℚ) - a) + g * (k : ℚ)) / ((k : ℚ) - a) := by
    field_simp
  have hC : erlangC k a (a / (k : ℚ)) =
      g * (k : ℚ) / (s * ((k : ℚ) - a) + g * (k : ℚ)) := by
    rw [erlangC, erlangP0, hlast, hone, ← hsDef, hsplit, ← hgDef]
    field_simp
  have hdl : (k : ℚ) * mu - lam = mu * ((k : ℚ) - a) := by
    rw [haDef, trafficA]
    field_simp
  rw [mmkWq, hrho, ← haDef, hC, hdl]
  rw [div_div]
  ring

/-- The purely algebraic heart of the monotonicity claim: with
`s` the partial exponential sum, `g = a^K/K!`, and `0 < a < K`, adding a
server strictly decreases the queue-wait numerator/denominator ratio. -/
lemma erlang_step_key (a s g K : ℚ) (ha : 0 < a) (hs : 0 < s) (hg : 0 < g)
    (haK : a < K) :
    a * ((K - a) * (s * (K - a) + g * K)) <
      K * ((K + 1 - a) * ((s + g) * (K + 1 - a) + g * a)) := by
  have hK : 0 < K := lt_trans ha haK
  have f1 : a * (K - a) < K * (K + 1 - a) := by nlinarith
  have f2 : s * (K - a) + g * K < (s + g) * (K + 1 - a) + g * a := by nlinarith
  have p1 : 0 < s * (K - a) + g * K := by nlinarith
  calc a * ((K - a) * (s * (K - a) + g * K))
      = (a * (K - a)) * (s * (K - a) + g * K) := by ring
    _ < (K * (K + 1 - a)) * (s * (K - a) + g * K) :=
        mul_lt_mul_of_pos_right f1 p1
    _ < (K * (K + 1 - a)) * ((s + g) * (K + 1 - a) + g * a) := by
        apply mul_lt_mul_of_pos_left f2
        nlinarith
    _ = K * ((K + 1 - a) * ((s + g) * (K + 1 - a) + g * a)) := by ring

/-- Adding one server strictly decreases the Erlang-C queue wait. -/
lemma mmkWq_succ_lt (k : ℕ) (lam mu : ℚ) (hk : 1 ≤ k) (hlam : 0 < lam)
    (hmu : 0 < mu) (hak : trafficA lam mu < (k : ℚ)) :
    mmkWq (k + 1) lam mu < mmkWq k lam mu := by
  have hk0 : (0:ℚ) < (k : ℚ) := by exact_mod_cast hk
  have ha : 0 < trafficA lam mu := trafficA_pos lam mu hlam hmu
  set a := trafficA lam mu with haDef
  set s := sumTerm k a with hsDef
  set g := a ^ k / (Nat.factorial k : ℚ) with hgDef
  have hg : 0 < g := by rw [hgDef]; positivity
  have hs : 0 < s := lt_of_lt_of_le one_pos (one_le_sumTerm k a hk ha.le)
  have hak1 : a < ((k + 1 : ℕ) : ℚ) := by push_cast; linarith
  have hclose1 := mmkWq_closed k lam mu hk hlam hmu hak
  have hclose2 := mmkWq_closed (k + 1) lam mu (by omega) hlam hmu hak1
  have hG : a ^ (k + 1) / (Nat.factorial (k + 1) : ℚ) * ((k + 1 : ℕ) : ℚ) =
      g * a := by
    rw [pow_succ, Nat.factorial_succ, hgDef]
    push_cast
    have h1 : ((k : ℚ) + 1) ≠ 0 := by positivity
    have h2 : (Nat.factorial k : ℚ) ≠ 0 := by
      have : (0:ℚ) < (Nat.factorial k : ℚ) := by exact_mod_cast Nat.factorial_pos _
      exact ne_of_gt this
    field_simp
    ring
  have hS : sumTerm (k + 1) a = s + g := by rw [sumTerm_succ, hsDef, hgDef]
  rw [hclose1, hclose2, hG, hS, ← haDef]
  have hksub : (0:ℚ) < (k : ℚ) - a := sub_pos.mpr hak
  have hksub1 : (0:ℚ) < ((k + 1 : ℕ) : ℚ) - a := by push_cast; linarith
  have hden1 : (0:ℚ) < (s + g) * (((k + 1 : ℕ) : ℚ) - a) + g * a := by
    have h1 : 0 < (s + g) * (((k + 1 : ℕ) : ℚ) - a) := mul_pos (by linarith) hksub1
    nlinarith
  have hden2 : (0:ℚ) < s * ((k : ℚ) - a) + g * (k : ℚ) := by
    have h1 : 0 < s * ((k : ℚ) - a) := mul_pos hs hksub
    nlinarith
  have hD1 : (0:ℚ) < mu * (((k + 1 : ℕ) : ℚ) - a) *
      ((s + g) * (((k + 1 : ℕ) : ℚ) - a) + g * a) :=
    mul_pos (mul_pos hmu hksub1) hden1
  have hD2 : (0:ℚ) < mu * ((k : ℚ) - a) *
      (s * ((k : ℚ) - a) + g * (k : ℚ)) :=
    mul_pos (mul_pos hmu hksub) hden2
  rw [div_lt_div_iff hD1 hD2]
  have key := erlang_step_key a s g (k : ℚ) ha hs hg hak
  have hgmu : (0:ℚ) < g * mu := mul_pos hg hmu
  have h2 := mul_lt_mul_of_pos_left key hgmu
  push_cast
  nlinarith [h2]

/-- Erlang-C queue wait is strictly decreasing in the server count, as
long as the smaller count already satisfies `a < k1`. -/
lemma mmkWq_lt_of_servers_lt (lam mu : ℚ) (k1 k2 : ℕ) (hlam : 0 < lam)
    (hmu : 0 < mu) (hk1 : 1 ≤ k1) (h12 : k1 < k2)
    (hak : trafficA lam mu < (k1 : ℚ)) :
    mmkWq k2 lam mu < mmkWq k1 lam mu := by
  induction k2, h12 using Nat.le_induction with
  | base => exact mmkWq_succ_lt k1 lam mu hk1 hlam hmu hak
  | succ m hm ih =>
      have hkm : trafficA lam mu < (m : ℚ) := by
        have h1 : ((k1 : ℚ)) ≤ (m : ℚ) := by exact_mod_cast (by omega : k1 ≤ m)
        linarith
      exact lt_trans (mmkWq_succ_lt m lam mu (by omega) hlam hmu hkm) ih

lemma mmkW_lt_of_servers_lt (lam mu : ℚ) (k1 k2 : ℕ) (hlam : 0 < lam)
    (hmu : 0 < mu) (hk1 : 1 ≤ k1) (h12 : k1 < k2)
    (hak : trafficA lam mu < (k1 : ℚ)) :
    mmkW k2 lam mu < mmkW k1 lam mu := by
  rw [mmkW, mmkW]
  have := mmkWq_lt_of_servers_lt lam mu k1 k2 hlam hmu hk1 h12 hak
  linarith

/-! ### Confidence interval facts -/

lemma ciMargin_nonneg (W : ℚ) (n : ℤ) (hW : 0 ≤ W) : 0 ≤ ciMargin W n := by
  rw [ciMargin]
  have h1 : (0:ℝ) ≤ (W : ℝ) := by exact_mod_cast hW
  have h2 : (0:ℝ) ≤ Real.sqrt ((max n 1 : ℤ) : ℝ) := Real.sqrt_nonneg _
  have h3 : (0:ℝ) ≤ (1.96 : ℝ) := by norm_num
  exact mul_nonneg h3 (div_nonneg h1 h2)

lemma one_le_sqrt_clamp (n : ℤ) : (1:ℝ) ≤ Real.sqrt ((max n 1 : ℤ) : ℝ) := by
  have h1 : (1:ℝ) ≤ ((max n 1 : ℤ) : ℝ) := by
    have : (1:ℤ) ≤ max n 1 := le_max_right n 1
    exact_mod_cast this
  calc (1:ℝ) = Real.sqrt 1 := Real.sqrt_one.symm
    _ ≤ Real.sqrt ((max n 1 : ℤ) : ℝ) := Real.sqrt_le_sqrt h1

lemma ciMargin_strict_anti (W : ℚ) (hW : 0 < W) (n1 n2 : ℤ) (hn1 : 1 ≤ n1)
    (h12 : n1 < n2) : ciMargin W n2 < ciMargin W n1 := by
  rw [ciMargin, ciMargin]
  rw [max_eq_left hn1, max_eq_left (by omega : (1:ℤ) ≤ n2)]
  have hpos : (0:ℝ) < ((n1 : ℤ) : ℝ) := by exact_mod_cast (by omega : (0:ℤ) < n1)
  have hlt : ((n1 : ℤ) : ℝ) < ((n2 : ℤ) : ℝ) := by exact_mod_cast h12
  have hs : Real.sqrt ((n1 : ℤ) : ℝ) < Real.sqrt ((n2 : ℤ) : ℝ) :=
    Real.sqrt_lt_sqrt hpos.le hlt
  have hs1 : (0:ℝ) < Real.sqrt ((n1 : ℤ) : ℝ) := Real.sqrt_pos.mpr hpos
  have hWr : (0:ℝ) < (W : ℝ) := by exact_mod_cast hW
  have hdiv : (W : ℝ) / Real.sqrt ((n2 : ℤ) : ℝ) <
      (W : ℝ) / Real.sqrt ((n1 : ℤ) : ℝ) :=
    div_lt_div_of_pos_left hWr hs1 hs
  have h196 : (0:ℝ) < (1.96 : ℝ) := by norm_num
  exact mul_lt_mul_of_pos_left hdiv h196

lemma ciWidth_eq_min (W : ℚ) (n : ℤ) :
    ciUpper W n - ciLower W n =
      min ((W : ℝ) + ciMargin W n) (2 * ciMargin W n) := by
  rw [ciUpper, ciLower]
  rcases le_total ((W : ℝ) - ciMargin W n) 0 with h | h
  · rw [max_eq_left h, min_eq_left (by linarith)]
    ring
  · rw [max_eq_right h, min_eq_right (by linarith)]
    ring

lemma ciLower_le (W : ℚ) (n : ℤ) (hW : 0 ≤ W) : ciLower W n ≤ (W : ℝ) := by
  rw [ciLower]
  have h1 : (0:ℝ) ≤ (W : ℝ) := by exact_mod_cast hW
  have h2 := ciMargin_nonneg W n hW
  apply max_le h1
  linarith

lemma le_ciUpper (W : ℚ) (n : ℤ) (hW : 0 ≤ W) : (W : ℝ) ≤ ciUpper W n := by
  rw [ciUpper]
  have := ciMargin_nonneg W n hW
  linarith

lemma ciWidth_finite (W rho : ℚ) (n : ℤ) :
    ciWidth (finiteResult W rho n) =
      ((ciUpper W n - ciLower W n : ℝ) : WithTop ℝ) := by
  rw [ciWidth, finiteResult]
  rw [← WithTop.coe_add]
  congr 1

lemma statusOf_ne_overloaded (rho : ℚ) : statusOf rho ≠ "overloaded" := by
  rw [statusOf]
  split
  · decide
  · split
    · decide
    · decide

/-! ### Claim C1 -/

/-- C1 (counterexample): the claim says every call with `μ ≤ 0` fails with
a ValueError, for any `λ`.  But `calculate_wait_time` tests
`arrival_rate <= 0` first: at `λ = 0`, `μ = -1` it returns the
zero-arrival result instead of raising. -/
theorem C1_counterexample :
    calculate_wait_time 1 0 (-1) 10 = Except.ok zeroArrivalResult := by
  rw [calculate_wait_time, if_pos (le_refl (0:ℚ))]

/-- C1 (amended): for every `λ > 0`, a call with `μ ≤ 0` fails with the
ValueError "Service rate must be positive", for any server count and
sample count. -/
theorem C1_mu_nonpos_raises (k : ℕ) (lam mu : ℚ) (n : ℤ) (hlam : 0 < lam)
    (hmu : mu ≤ 0) :
    calculate_wait_time k lam mu n =
      Except.error "Service rate must be positive" := by
  rw [calculate_wait_time, if_neg (not_le.mpr hlam), if_pos hmu]

/-- C1 witness: the amended theorem applied at `k = 1`, `λ = 1`,
`μ = -1`, `n = 10`. -/
theorem C1_mu_nonpos_raises_witness :
    (0:ℚ) < 1 ∧ (-1:ℚ) ≤ 0 ∧
      calculate_wait_time 1 1 (-1) 10 =
        Except.error "Service rate must be positive" :=
  ⟨by norm_num, by norm_num,
    C1_mu_nonpos_raises 1 1 (-1) 10 (by norm_num) (by norm_num)⟩

/-! ### Claim C7 -/

/-- C7 (counterexample): the claim's percentage clause applies the absolute
value to the numerator only.  At `previous_wait = -10`,
`new_wait = -13`, threshold `15`: the source gate computes
`abs((-13 - (-10)) / (-10) * 100) = 30 ≥ 15` and publishes, while the
claim's formula gives `|-3| / (-10) * 100 = -30 < 15`. -/
theorem C7_counterexample :
    is_significant_change (some (-10)) (-13) 15 = true ∧
      is_significant_change_claimed (some (-10)) (-13) 15 = false := by
  constructor
  · norm_num [is_significant_change]
  · norm_num [is_significant_change_claimed]

/-- C7 (amended): the gate returns true exactly when the previous wait is
none; or it is 0 and the new wait exceeds 0.5; or it is nonzero and
`|(new - prev) / prev * 100| ≥ threshold` (absolute value around the whole
percentage).  In particular the five enumerated examples hold. -/
theorem C7_gate_characterization :
    (∀ (old : Option ℚ) (x t : ℚ),
      is_significant_change old x t = true ↔
        old = none ∨ (old = some 0 ∧ 1/2 < x) ∨
          (∃ p, old = some p ∧ p ≠ 0 ∧ t ≤ |(x - p) / p * 100|)) ∧
      (∀ x : ℚ, is_significant_change none x 15 = true) ∧
      is_significant_change (some 0) (4/10) 15 = false ∧
      is_significant_change (some 0) (6/10) 15 = true ∧
      is_significant_change (some 10) 11 15 = false ∧
      is_significant_change (some 10) 12 15 = true := by
  refine ⟨?_, fun x => rfl, by norm_num [is_significant_change],
    by norm_num [is_significant_change], by norm_num [is_significant_change],
    by norm_num [is_significant_change]⟩
  intro old x t
  cases old with
  | none => simp [is_significant_change]
  | some p =>
      by_cases hp : p = 0
      · subst hp
        simp [is_significant_change, decide_eq_true_iff]
      · simp only [is_significant_change, if_neg hp, decide_eq_true_iff]
        constructor
        · intro h
          exact Or.inr (Or.inr ⟨p, rfl, hp, h⟩)
        · rintro (h | ⟨h, _⟩ | ⟨q, hq, _, h⟩)
          · exact absurd h (by simp)
          · exact absurd (Option.some.injEq .. ▸ h) hp
          · cases Option.some.injEq p q ▸ hq
            exact h

/-! ### Claim C8 -/

/-- C8: the first `update x` on a fresh smoother returns and stores `x`;
a second update with `alpha = 0.3` returns `0.3·x2 + 0.7·x1`; in general
an update with a stored previous value returns
`alpha·raw + (1-alpha)·prev`. -/
theorem C8_smoother_ema (alpha x x1 x2 prev : ℚ) :
    ((ArrivalRateSmoother.mk alpha none).update x).1 = x ∧
      ((ArrivalRateSmoother.mk alpha none).update x).2.current_rate = some x ∧
      (((ArrivalRateSmoother.mk (3/10) none).update x1).2.update x2).1 =
        3/10 * x2 + 7/10 * x1 ∧
      ((ArrivalRateSmoother.mk alpha (some prev)).update x).1 =
        alpha * x + (1 - alpha) * prev := by
  refine ⟨rfl, rfl, ?_, rfl⟩
  show (3:ℚ)/10 * x2 + (1 - 3/10) * x1 = 3/10 * x2 + 7/10 * x1
  norm_num

/-! ### Claim C2 -/

/-- C2: for `k = 1` and `ρ = λ/μ < 0.95` the dedicated M/M/1 path and the
general Erlang-C path evaluated with one server agree on `wait_minutes` —
in fact exactly, so certainly within 1% relative difference. -/
theorem C2_mm1_mmk_agree (lam mu : ℚ) (n : ℤ) (hlam : 0 < lam) (hmu : 0 < mu)
    (hrho : mm1Rho lam mu < 95/100) :
    (calculate_mmk 1 lam mu n).wait_minutes =
        (calculate_mm1 lam mu n).wait_minutes ∧
      |mmkW 1 lam mu - mm1W lam mu| ≤ mm1W lam mu / 100 := by
  have heq := calculate_mm1_eq_mmk_one lam mu hmu n
  have hWeq : mmkW 1 lam mu = mm1W lam mu := by
    rw [mmkW, mm1W, mmkWq_one_eq lam mu hmu (by linarith)]
  refine ⟨by rw [heq], ?_⟩
  rw [hWeq, sub_self, abs_zero]
  have hrho1 : mmkRho 1 lam mu < 95/100 := by rw [mmkRho_one]; exact hrho
  have hpos := mmkW_pos 1 lam mu le_rfl hlam hmu hrho1
  rw [hWeq] at hpos
  linarith

/-- C2 witness: the two paths agree at `λ = 2`, `μ = 3`, `n = 10`. -/
theorem C2_mm1_mmk_agree_witness :
    (0:ℚ) < 2 ∧ (0:ℚ) < 3 ∧ mm1Rho 2 3 < 95/100 ∧
      ((calculate_mmk 1 2 3 10).wait_minutes =
          (calculate_mm1 2 3 10).wait_minutes ∧
        |mmkW 1 2 3 - mm1W 2 3| ≤ mm1W 2 3 / 100) :=
  ⟨by norm_num, by norm_num, by norm_num [mm1Rho],
    C2_mm1_mmk_agree 2 3 10 (by norm_num) (by norm_num) (by norm_num [mm1Rho])⟩

/-! ### Claim C3 -/

/-- C3 (counterexample): the claim asks `wait_minutes = 1/(μ-λ)` for all
`0 < λ < μ`, but at `λ = 0.96`, `μ = 1` (so `λ < μ` yet `ρ = 0.96 ≥ 0.95`)
the overload guard returns `wait_minutes = ∞ ≠ 1/(μ-λ) = 25`. -/
theorem C3_counterexample :
    calculate_wait_time 1 (96/100) 1 10 =
        Except.ok (overloadedResult (96/100)) ∧
      (overloadedResult (96/100)).wait_minutes ≠
        (((1 / (1 - 96/100) : ℚ) : ℝ) : WithTop ℝ) := by
  constructor
  · rw [calculate_wait_time, if_neg (by norm_num), if_neg (by norm_num),
      if_pos rfl, calculate_mm1]
    rw [if_pos (by norm_num [mm1Rho] : (95:ℚ)/100 ≤ mm1Rho (96/100) 1)]
    norm_num [mm1Rho]
  · exact WithTop.top_ne_coe

lemma mm1W_closed (lam mu : ℚ) (hlam : 0 < lam) (hmu : 0 < mu)
    (hrho : mm1Rho lam mu < 95/100) : mm1W lam mu = 1 / (mu - lam) := by
  have hmu0 : mu ≠ 0 := ne_of_gt hmu
  have hml : 0 < mu - lam := by
    have h1 : lam / mu < 1 := by
      rw [mm1Rho] at hrho; linarith
    rw [div_lt_one hmu] at h1
    linarith
  have hmlne : mu - lam ≠ 0 := ne_of_gt hml
  rw [mm1W, mm1Wq, mm1Rho]
  field_simp
  ring

/-- C3 (amended): for `0 < λ`, `μ > 0` with `ρ = λ/μ < 0.95` (instead of
just `λ < μ`), the `k = 1` wait is exactly `1/(μ-λ)`. -/
theorem C3_mm1_closed_form (lam mu : ℚ) (n : ℤ) (hlam : 0 < lam)
    (hmu : 0 < mu) (hrho : mm1Rho lam mu < 95/100) (r : WaitTimeResult)
    (hr : calculate_wait_time 1 lam mu n = Except.ok r) :
    r.wait_minutes = (((1 / (mu - lam) : ℚ) : ℝ) : WithTop ℝ) := by
  rw [calculate_wait_time, if_neg (not_le.mpr hlam), if_neg (not_le.mpr hmu),
    if_pos rfl] at hr
  obtain rfl := Except.ok.inj hr
  rw [calculate_mm1, if_neg (not_le.mpr hrho)]
  show (((mm1W lam mu : ℚ) : ℝ) : WithTop ℝ) = _
  rw [mm1W_closed lam mu hlam hmu hrho]

/-- C3 witness: at `λ = 1`, `μ = 2`, `n = 10` the wait is `1/(2-1)`. -/
theorem C3_mm1_closed_form_witness :
    (0:ℚ) < 1 ∧ (0:ℚ) < 2 ∧ mm1Rho 1 2 < 95/100 ∧
      (calculate_mm1 1 2 10).wait_minutes =
        (((1 / (2 - 1 : ℚ) : ℚ) : ℝ) : WithTop ℝ) :=
  ⟨by norm_num, by norm_num, by norm_num [mm1Rho],
    C3_mm1_closed_form 1 2 10 (by norm_num) (by norm_num) (by norm_num [mm1Rho])
      (calculate_mm1 1 2 10)
      (by rw [calculate_wait_time, if_neg (by norm_num), if_neg (by norm_num),
            if_pos rfl])⟩

/-! ### Claim C5 -/

/-- C5: with `λ, μ > 0` and `k ≥ 1`, a utilization of exactly `0.94999`
classifies as `high` with a finite wait, while `ρ ≥ 0.95` returns the
overloaded record: infinite wait, sentinel lower bound 15, infinite upper
bound, utilization `ρ`. -/
theorem C5_overload_boundary (k : ℕ) (lam mu : ℚ) (n : ℤ) (hlam : 0 < lam)
    (hmu : 0 < mu) (hk : 1 ≤ k) (r : WaitTimeResult)
    (hr : calculate_wait_time k lam mu n = Except.ok r) :
    (mmkRho k lam mu = 94999/100000 →
        r.status = "high" ∧ r.wait_minutes ≠ ⊤) ∧
      (95/100 ≤ mmkRho k lam mu →
        r.status = "overloaded" ∧ r.wait_minutes = ⊤ ∧
          r.confidence_lower = 15 ∧ r.confidence_upper = ⊤ ∧
          r.utilization = mmkRho k lam mu) := by
  rw [calculate_wait_time_pos k lam mu n hlam hmu hk] at hr
  obtain rfl := Except.ok.inj hr
  constructor
  · intro hrho
    rw [calculate_mmk, hrho, if_neg (by norm_num)]
    constructor
    · show statusOf (94999/100000) = "high"
      rw [statusOf, if_neg (by norm_num), if_neg (by norm_num)]
    · exact WithTop.coe_ne_top
  · intro hrho
    rw [calculate_mmk, if_pos hrho]
    exact ⟨rfl, rfl, rfl, rfl, rfl⟩

/-- C5 witness: at `k = 1`, `λ = 94999`, `μ = 100000` the utilization is
exactly `0.94999` and the result is `high` with a finite wait. -/
theorem C5_overload_boundary_witness :
    (0:ℚ) < 94999 ∧ (0:ℚ) < 100000 ∧
      mmkRho 1 94999 100000 = 94999/100000 ∧
      ((calculate_mmk 1 94999 100000 10).status = "high" ∧
        (calculate_mmk 1 94999 100000 10).wait_minutes ≠ ⊤) :=
  ⟨by norm_num, by norm_num, by norm_num [mmkRho],
    (C5_overload_boundary 1 94999 100000 10 (by norm_num) (by norm_num) le_rfl
        (calculate_mmk 1 94999 100000 10)
        (calculate_wait_time_pos 1 94999 100000 10 (by norm_num) (by norm_num)
          le_rfl)).1
      (by norm_num [mmkRho])⟩

/-! ### Claim C4 -/

/-- C4 (counterexample): at `λ = 100`, `μ = 1` both `k1 = 1` and `k2 = 2`
are overloaded, so both waits are `+∞` and the wait at `k2` is not
strictly smaller. -/
theorem C4_counterexample :
    calculate_wait_time 1 100 1 10 =
        Except.ok (overloadedResult (mmkRho 1 100 1)) ∧
      calculate_wait_time 2 100 1 10 =
        Except.ok (overloadedResult (mmkRho 2 100 1)) ∧
      ¬ ((overloadedResult (mmkRho 2 100 1)).wait_minutes <
          (overloadedResult (mmkRho 1 100 1)).wait_minutes) := by
  refine ⟨?_, ?_, ?_⟩
  · rw [calculate_wait_time_pos 1 100 1 10 (by norm_num) (by norm_num) le_rfl,
      calculate_mmk,
      if_pos (by norm_num [mmkRho] : (95:ℚ)/100 ≤ mmkRho 1 100 1)]
  · rw [calculate_wait_time_pos 2 100 1 10 (by norm_num) (by norm_num)
      (by norm_num), calculate_mmk,
      if_pos (by norm_num [mmkRho] : (95:ℚ)/100 ≤ mmkRho 2 100 1)]
  · show ¬ ((⊤ : WithTop ℝ) < (⊤ : WithTop ℝ))
    exact lt_irrefl _

/-- C4 (amended): holding `λ, μ > 0` fixed, for `k2 > k1 ≥ 1` the wait at
`k2` is strictly smaller than at `k1` provided `k2` is not overloaded
(`ρ(k2) = λ/(k2·μ) < 0.95`); when both counts are overloaded both waits
are `+∞` and the comparison is not strict. -/
theorem C4_more_servers_less_wait (lam mu : ℚ) (n : ℤ) (k1 k2 : ℕ)
    (hlam : 0 < lam) (hmu : 0 < mu) (hk1 : 1 ≤ k1) (h12 : k1 < k2)
    (hrho2 : mmkRho k2 lam mu < 95/100) (r1 r2 : WaitTimeResult)
    (h1 : calculate_wait_time k1 lam mu n = Except.ok r1)
    (h2 : calculate_wait_time k2 lam mu n = Except.ok r2) :
    r2.wait_minutes < r1.wait_minutes := by
  rw [calculate_wait_time_pos k1 lam mu n hlam hmu hk1] at h1
  rw [calculate_wait_time_pos k2 lam mu n hlam hmu (by omega)] at h2
  obtain rfl := Except.ok.inj h1
  obtain rfl := Except.ok.inj h2
  simp only [calculate_mmk]
  rw [if_neg (not_le.mpr hrho2)]
  by_cases hrho1 : 95/100 ≤ mmkRho k1 lam mu
  · rw [if_pos hrho1]
    show (((mmkW k2 lam mu : ℚ) : ℝ) : WithTop ℝ) < ⊤
    exact WithTop.coe_lt_top _
  · rw [if_neg hrho1]
    show (((mmkW k2 lam mu : ℚ) : ℝ) : WithTop ℝ) <
      (((mmkW k1 lam mu : ℚ) : ℝ) : WithTop ℝ)
    push_neg at hrho1
    have hak : trafficA lam mu < (k1 : ℚ) :=
      trafficA_lt_of_rho k1 lam mu hk1 hmu hrho1
    have hlt := mmkW_lt_of_servers_lt lam mu k1 k2 hlam hmu hk1 h12 hak
    exact_mod_cast hlt

/-- C4 witness: at `λ = μ = 1`, one server is overloaded while four
servers give a finite, strictly smaller wait. -/
theorem C4_more_servers_less_wait_witness :
    (0:ℚ) < 1 ∧ 1 ≤ (1:ℕ) ∧ (1:ℕ) < 4 ∧ mmkRho 4 1 1 < 95/100 ∧
      (calculate_mmk 4 1 1 10).wait_minutes <
        (calculate_mmk 1 1 1 10).wait_minutes :=
  ⟨by norm_num, le_rfl, by norm_num, by norm_num [mmkRho],
    C4_more_servers_less_wait 1 1 10 1 4 (by norm_num) (by norm_num) le_rfl
      (by norm_num) (by norm_num [mmkRho])
      (calculate_mmk 1 1 1 10) (calculate_mmk 4 1 1 10)
      (calculate_wait_time_pos 1 1 1 10 (by norm_num) (by norm_num) le_rfl)
      (calculate_wait_time_pos 4 1 1 10 (by norm_num) (by norm_num)
        (by norm_num))⟩

/-! ### Claim C6 -/

/-- C6 (counterexample): the claim asks strict narrowing for every
`n2 > n1`, but `sample_count` is clamped by `max(sample_count, 1)`:
at `λ = 1`, `μ = 2`, `k = 1` the widths at `n1 = 0` and `n2 = 1`
coincide. -/
theorem C6_counterexample :
    calculate_wait_time 1 1 2 0 = Except.ok (calculate_mm1 1 2 0) ∧
      calculate_wait_time 1 1 2 1 = Except.ok (calculate_mm1 1 2 1) ∧
      ¬ (ciWidth (calculate_mm1 1 2 1) < ciWidth (calculate_mm1 1 2 0)) := by
  refine ⟨?_, ?_, ?_⟩
  · rw [calculate_wait_time, if_neg (by norm_num), if_neg (by norm_num),
      if_pos rfl]
  · rw [calculate_wait_time, if_neg (by norm_num), if_neg (by norm_num),
      if_pos rfl]
  · have e0 : (max (0:ℤ) 1) = 1 := max_eq_right (by norm_num)
    have e1 : (max (1:ℤ) 1) = 1 := max_self 1
    have h : calculate_mm1 1 2 1 = calculate_mm1 1 2 0 := by
      simp only [calculate_mm1, finiteResult, ciLower, ciUpper, ciMargin,
        e0, e1]
    rw [h]
    exact lt_irrefl _

/-- C6 (amended): the confidence-interval width is strictly decreasing in
the sample count on the clamped range: for `n2 > n1 ≥ 1` (and a
non-overloaded system), the width at `n2` is strictly smaller. -/
theorem C6_ci_narrows (k : ℕ) (lam mu : ℚ) (n1 n2 : ℤ) (hlam : 0 < lam)
    (hmu : 0 < mu) (hk : 1 ≤ k) (hrho : mmkRho k lam mu < 95/100)
    (hn1 : 1 ≤ n1) (h12 : n1 < n2) (r1 r2 : WaitTimeResult)
    (h1 : calculate_wait_time k lam mu n1 = Except.ok r1)
    (h2 : calculate_wait_time k lam mu n2 = Except.ok r2) :
    ciWidth r2 < ciWidth r1 := by
  rw [calculate_wait_time_pos k lam mu n1 hlam hmu hk] at h1
  rw [calculate_wait_time_pos k lam mu n2 hlam hmu hk] at h2
  obtain rfl := Except.ok.inj h1
  obtain rfl := Except.ok.inj h2
  simp only [calculate_mmk]
  rw [if_neg (not_le.mpr hrho), if_neg (not_le.mpr hrho)]
  rw [ciWidth_finite, ciWidth_finite, WithTop.coe_lt_coe]
  rw [ciWidth_eq_min, ciWidth_eq_min]
  have hW : 0 < mmkW k lam mu := mmkW_pos k lam mu hk hlam hmu hrho
  have hm := ciMargin_strict_anti (mmkW k lam mu) hW n1 n2 hn1 h12
  apply lt_min
  · exact lt_of_le_of_lt (min_le_left _ _) (by linarith)
  · exact lt_of_le_of_lt (min_le_right _ _) (by linarith)

/-- C6 witness: at `λ = 1`, `μ = 2`, `k = 1` the width at `n = 4` is
strictly smaller than the width at `n = 1`. -/
theorem C6_ci_narrows_witness :
    (0:ℚ) < 1 ∧ (0:ℚ) < 2 ∧ mmkRho 1 1 2 < 95/100 ∧ (1:ℤ) ≤ 1 ∧ (1:ℤ) < 4 ∧
      ciWidth (calculate_mmk 1 1 2 4) < ciWidth (calculate_mmk 1 1 2 1) :=
  ⟨by norm_num, by norm_num, by norm_num [mmkRho], le_rfl, by norm_num,
    C6_ci_narrows 1 1 2 1 4 (by norm_num) (by norm_num) le_rfl
      (by norm_num [mmkRho]) le_rfl (by norm_num)
      (calculate_mmk 1 1 2 1) (calculate_mmk 1 1 2 4)
      (calculate_wait_time_pos 1 1 2 1 (by norm_num) (by norm_num) le_rfl)
      (calculate_wait_time_pos 1 1 2 4 (by norm_num) (by norm_num) le_rfl)⟩

/-! ### Claim C9 -/

/-- C9: every non-overloaded result satisfies
`confidence_lower ≤ wait_minutes ≤ confidence_upper`; every overloaded
result carries the sentinel lower bound 15 and infinite upper bound. -/
theorem C9_ci_invariant (k : ℕ) (lam mu : ℚ) (n : ℤ) (hmu : 0 < mu)
    (hk : 1 ≤ k) (r : WaitTimeResult)
    (hr : calculate_wait_time k lam mu n = Except.ok r) :
    (r.status ≠ "overloaded" →
        (r.confidence_lower : WithTop ℝ) ≤ r.wait_minutes ∧
          r.wait_minutes ≤ r.confidence_upper) ∧
      (r.status = "overloaded" →
        r.confidence_lower = 15 ∧ r.confidence_upper = ⊤) := by
  by_cases hlam : lam ≤ 0
  · rw [calculate_wait_time, if_pos hlam] at hr
    obtain rfl := Except.ok.inj hr
    constructor
    · intro _
      exact ⟨le_refl _, le_refl _⟩
    · intro h
      exact absurd h (by decide)
  · push_neg at hlam
    rw [calculate_wait_time_pos k lam mu n hlam hmu hk] at hr
    obtain rfl := Except.ok.inj hr
    by_cases hov : 95/100 ≤ mmkRho k lam mu
    · rw [calculate_mmk, if_pos hov]
      constructor
      · intro h
        exact absurd rfl h
      · intro _
        exact ⟨rfl, rfl⟩
    · rw [calculate_mmk, if_neg hov]
      push_neg at hov
      have hW := mmkW_pos k lam mu hk hlam hmu hov
      constructor
      · intro _
        constructor
        · show ((ciLower (mmkW k lam mu) n : ℝ) : WithTop ℝ) ≤
            (((mmkW k lam mu : ℚ) : ℝ) : WithTop ℝ)
          rw [WithTop.coe_le_coe]
          exact ciLower_le _ _ hW.le
        · show (((mmkW k lam mu : ℚ) : ℝ) : WithTop ℝ) ≤
            ((ciUpper (mmkW k lam mu) n : ℝ) : WithTop ℝ)
          rw [WithTop.coe_le_coe]
          exact le_ciUpper _ _ hW.le
      · intro h
        exact absurd h (statusOf_ne_overloaded _)

/-- C9 witness: the overloaded case at `k = 1`, `λ = μ = 1` carries the
sentinel bounds. -/
theorem C9_ci_invariant_witness :
    (0:ℚ) < 1 ∧ 1 ≤ (1:ℕ) ∧
      (calculate_mmk 1 1 1 0).confidence_lower = 15 ∧
      (calculate_mmk 1 1 1 0).confidence_upper = ⊤ := by
  have hst : (calculate_mmk 1 1 1 0).status = "overloaded" := by
    rw [calculate_mmk,
      if_pos (by norm_num [mmkRho] : (95:ℚ)/100 ≤ mmkRho 1 1 1)]
    rfl
  have h := (C9_ci_invariant 1 1 1 0 (by norm_num) le_rfl
      (calculate_mmk 1 1 1 0)
      (calculate_wait_time_pos 1 1 1 0 (by norm_num) (by norm_num)
        le_rfl)).2 hst
  exact ⟨by norm_num, le_rfl, h.1, h.2⟩

/-! ### Claim C10 -/

/-- C10: on the non-overloaded path every divisor is positive —
`1 - ρ ≥ 0.05`, `k·μ - λ > 0`, `sqrt(max(n,1)) ≥ 1`, the Erlang-C `P0`
denominator is at least 1 — and the queue wait `Wq` is nonnegative (for
both the general path and, at `k = 1`, the dedicated M/M/1 path). -/
theorem C10_no_div_by_zero (k : ℕ) (lam mu : ℚ) (n : ℤ) (hlam : 0 < lam)
    (hmu : 0 < mu) (hk : 1 ≤ k) (hrho : mmkRho k lam mu < 95/100) :
    1/20 ≤ 1 - mmkRho k lam mu ∧
      0 < (k : ℚ) * mu - lam ∧
      (1:ℝ) ≤ Real.sqrt ((max n 1 : ℤ) : ℝ) ∧
      1 ≤ sumTerm k (trafficA lam mu) +
          lastTerm k (trafficA lam mu) (mmkRho k lam mu) ∧
      0 ≤ mmkWq k lam mu ∧
      (k = 1 → 0 ≤ mm1Wq lam mu) := by
  have ha := trafficA_pos lam mu hlam hmu
  have hrho1 := mmkRho_lt_one k lam mu hk hmu hrho
  refine ⟨by linarith, mmk_divisor_pos k lam mu hk hlam hmu hrho,
    one_le_sqrt_clamp n, ?_, mmkWq_nonneg k lam mu hk hlam hmu hrho, ?_⟩
  · have h1 := one_le_sumTerm k (trafficA lam mu) hk ha.le
    have h2 := lastTerm_pos k (trafficA lam mu) (mmkRho k lam mu) ha hrho1
    linarith
  · intro hk1
    subst hk1
    have hlt : mm1Rho lam mu < 1 := by rw [← mmkRho_one]; exact hrho1
    rw [← mmkWq_one_eq lam mu hmu hlt]
    exact mmkWq_nonneg 1 lam mu le_rfl hlam hmu hrho

/-- C10 witness: at `k = 2`, `λ = μ = 1` the divisors are positive and the
queue wait is nonnegative. -/
theorem C10_no_div_by_zero_witness :
    (0:ℚ) < 1 ∧ 1 ≤ (2:ℕ) ∧ mmkRho 2 1 1 < 95/100 ∧
      0 < ((2:ℕ) : ℚ) * (1:ℚ) - 1 ∧ 0 ≤ mmkWq 2 1 1 := by
  have h := C10_no_div_by_zero 2 1 1 0 (by norm_num) (by norm_num)
    (by norm_num) (by norm_num [mmkRho])
  exact ⟨by norm_num, by norm_num, by norm_num [mmkRho], h.2.1,
    h.2.2.2.2.1⟩

end
